import Mathlib

/-!
# Verification of the model-preset resolution engine
  (`tabular/src/autogluon/tabular/trainer/model_presets/presets.py`)

This file gives a shallow embedding of the preset-resolution pipeline:
`get_preset_models`, `clean_model_cfg`, `_verify_model_cfg`,
`is_model_cfg_valid`, `model_factory` and `get_preset_models_softclass`.

Python values are modelled by the inductive type `PVal` (None, bool, int,
string, list, dict); dictionaries are insertion-ordered association lists
with Python's `dict.update` / `d[k] = v` semantics (an existing key keeps
its position, a new key is appended).  Raised exceptions are modelled by
`Except Err`.  External collaborators that are not part of the analysed
source (the model registry, the running library version, the deprecated
GBMLarge mapping, `ModelFilter.filter_models`) are parameters of the
embedding or definitions explicitly modelled from the specification.
Integer-valued priorities are modelled as `Int` (the spec and the registry
use integer priorities throughout).
-/

/-- Python dictionary keys used by this subsystem: ints (stack levels) and
strings (model-type keys, argument names). -/
inductive PKey where
  | i : Int → PKey
  | s : String → PKey
deriving DecidableEq, Repr

/-- Dynamic Python values: `None`, booleans, integers, strings, lists and
(string/int-keyed) dictionaries, as used by the hyperparameter
configuration trees of `presets.py`. -/
inductive PVal where
  | none : PVal
  | b : Bool → PVal
  | i : Int → PVal
  | s : String → PVal
  | lst : List PVal → PVal
  | dct : List (PKey × PVal) → PVal
deriving Repr

/-- A Python dict: insertion-ordered association list. -/
abbrev Dict := List (PKey × PVal)

/-- Key-shorthand for string keys. -/
def ks (st : String) : PKey := .s st

/-- `d[k]` / `d.get(k)`: first binding of `k`. -/
def dget (d : Dict) (k : PKey) : Option PVal :=
  (d.find? (fun kv => kv.1 == k)).map (fun kv => kv.2)

/-- `k in d`. -/
def hasKey (d : Dict) (k : PKey) : Bool :=
  d.any (fun kv => kv.1 == k)

/-- `d[k] = v`: replace in place if the key exists, else append. -/
def dinsert (d : Dict) (k : PKey) (v : PVal) : Dict :=
  cond (d.any (fun kv => kv.1 == k))
    (d.map (fun kv => cond (kv.1 == k) (k, v) kv))
    (d ++ [(k, v)])

/-- `d.update(e)`: fold `d[k] = v` over the entries of `e`. -/
def dupdate (d e : Dict) : Dict :=
  e.foldl (fun acc kv => dinsert acc kv.1 kv.2) d

/-- `d.pop(k, None)`: remove all bindings of `k`. -/
def dremove (d : Dict) (k : PKey) : Dict :=
  d.filter (fun kv => kv.1 != k)

/-- String-keyed variants of the dict primitives. -/
def sget (d : Dict) (k : String) : Option PVal := dget d (ks k)

def sinsert (d : Dict) (k : String) (v : PVal) : Dict := dinsert d (ks k) v

def hasKeyS (d : Dict) (k : String) : Bool := hasKey d (ks k)

/-- Python truthiness of a value (`bool(v)`). -/
def PVal.truthy : PVal → Bool
  | .none => false
  | .b x => x
  | .i n => n != 0
  | .s st => st != ""
  | .lst l => !l.isEmpty
  | .dct d => !d.isEmpty

/-! ## Python equality and membership -/

mutual

/-- Python `==` on dynamic values.  Dicts compare by key set and pointwise
value equality (insertion order is irrelevant); lists compare pointwise.
(The Python identification of `True` with `1` is not modelled; the configs
this subsystem compares do not rely on it.) -/
def pyEq : PVal → PVal → Bool
  | .none, .none => true
  | .b x, .b y => x == y
  | .i x, .i y => x == y
  | .s x, .s y => x == y
  | .lst l1, .lst l2 => pyEqList l1 l2
  | .dct d1, .dct d2 => d1.length == d2.length && pyEqEntries d1 d2
  | _, _ => false

def pyEqList : List PVal → List PVal → Bool
  | [], [] => true
  | x :: xs, y :: ys => pyEq x y && pyEqList xs ys
  | _, _ => false

def pyEqEntries : List (PKey × PVal) → Dict → Bool
  | [], _ => true
  | (k, v) :: rest, d2 =>
    (match dget d2 k with
     | some w => pyEq v w
     | Option.none => false) && pyEqEntries rest d2
end

/-- Substring test on character lists (Python `needle in haystack` for
strings). -/
def charsContain (needle : List Char) : List Char → Bool
  | [] => needle.isEmpty
  | c :: rest => needle.isPrefixOf (c :: rest) || charsContain needle rest

/-- Python `x in container` for a string `x`. -/
def pyIn (x : String) (container : PVal) : Except Unit Bool :=
  match container with
  | .lst l => .ok (l.any (fun e => pyEq e (.s x)))
  | .s hay => .ok (charsContain x.data hay.data)
  | .dct d => .ok (hasKey d (ks x))
  | _ => .error ()

/-! ## Constants (values of `autogluon.core.constants`) -/

def AG_ARGS : String := "ag_args"

def AG_ARGS_FIT : String := "ag_args_fit"

def AG_ARGS_ENSEMBLE : String := "ag_args_ensemble"

def BINARY : String := "binary"

def MULTICLASS : String := "multiclass"

def REGRESSION : String := "regression"

def SOFTCLASS : String := "softclass"

def QUANTILE : String := "quantile"

def DEFAULT_CUSTOM_MODEL_PRIORITY : Int := 0

/-! ## Errors: raised Python exceptions -/

/-- Exceptions the pipeline can raise. -/
inductive Err where
  /-- `NotImplementedError`: unsupported problem type. -/
  | notImplementedError : Err
  /-- `AssertionError`: malformed variant config / unknown model type. -/
  | assertionError : Err
  /-- `TypeError` (or `AttributeError`): operation on a value of the wrong
  dynamic type.  Also covers the modelling restriction that bucketed
  priorities must be integers. -/
  | typeError : Err
  /-- `KeyError`: missing dictionary key. -/
  | keyError : Err
  /-- `ValueError`: the soft-classification entry point found no models. -/
  | valueError : Err
deriving DecidableEq, Repr

/-! ## The external model registry (collaborator, see spec section 6) -/

/-- A registered model class: display-name hint and default argument
layers (the registry stores type metadata; it is external to the analysed
source and is a parameter of the embedding).  Classes are referred to by
their registry key throughout. -/
structure ModelCls where
  clsName : String
  ag_name : Option String
  default_ag_args : Option Dict
  default_ag_args_ensemble : String → Option Dict

/-- The model registry: `key_to_cls_map()` and
`priority_map(problem_type)`. -/
structure Registry where
  key_to_cls : List (String × ModelCls)
  priorityMap : String → List (String × Int)

def Registry.findCls (reg : Registry) (key : String) : Option ModelCls :=
  (reg.key_to_cls.find? (fun kv => kv.1 == key)).map (fun kv => kv.2)

def pkeyVal : PKey → PVal
  | .i n => .i n
  | .s st => .s st

/-! ## `_verify_model_cfg` (presets.py lines 219-244) -/

/-- Modelled from the spec: the deprecated-but-supported mapping which the
legacy `"GBMLarge"` sentinel is rewritten to before the 1.3.0 cutoff
(`get_deprecated_lightgbm_large_hyperparameters` lives in
`autogluon.common`, which is not part of the analysed source; its exact
contents are irrelevant to the claims). -/
def get_deprecated_lightgbm_large_hyperparameters : Dict :=
  [(ks AG_ARGS, .dct [(ks "name_suffix", .s "Large"), (ks "priority", .i 0)])]

/-- `_verify_model_cfg`: a variant config must be a mapping; the single
legacy sentinel string `"GBMLarge"` is rewritten (with a warning) when the
running version predates 1.3.0 and rejected otherwise.  `verGe130` models
`version.parse(__version__) >= version.parse("1.3.0")`, evaluated at call
time; warnings are log-only and not modelled. -/
def _verify_model_cfg (verGe130 : Bool) (model_cfg : PVal) : Except Err Dict :=
  match model_cfg with
  | .dct d => .ok d
  | .s st =>
    if st = "GBMLarge" then
      if verGe130 then .error .assertionError
      else .ok get_deprecated_lightgbm_large_hyperparameters
    else .error .assertionError
  | _ => .error .assertionError

/-! ## `clean_model_cfg` (presets.py lines 168-216) -/

/-- `clean_model_cfg`: verify the variant config, install the `ag_args`
sub-dict and its `model_type`, resolve the model type through the registry
(resolved classes are represented by their registry key; passing an
already-concrete class object is outside the model), then merge the three
caller-supplied override bundles and the registry defaults with `update`
semantics, exactly in the source order:
global bundle updated by variant bundle, then registry default updated by
the result. -/
def clean_model_cfg (reg : Registry) (verGe130 : Bool) (model_cfg : PVal)
    (model_type : PKey) (ag_args ag_args_ensemble ag_args_fit : Option Dict)
    (problem_type : String) : Except Err Dict :=
  match _verify_model_cfg verGe130 model_cfg with
  | .error e => .error e
  | .ok cfg0 =>
    -- `copy.deepcopy` is the identity in a functional embedding
    let cfg1 := if hasKeyS cfg0 AG_ARGS then cfg0 else sinsert cfg0 AG_ARGS (.dct [])
    match sget cfg1 AG_ARGS with
    | some (.dct agA0) =>
      let agA1 := if hasKeyS agA0 "model_type" then agA0
                  else sinsert agA0 "model_type" (pkeyVal model_type)
      match sget agA1 "model_type" with
      | some PVal.none => .error .assertionError      -- line 176
      | some (.s key) =>
        (match reg.findCls key with
         | Option.none => .error .assertionError      -- line 181: unknown type key
         | some cls =>
           -- line 190: store the resolved type (kept as its registry key)
           let agA2 := sinsert agA1 "model_type" (.s key)
           let cfg2 := sinsert cfg1 AG_ARGS (.dct agA2)
           -- lines 195-198: caller-supplied global ag_args overlaid by the
           -- variant's own ag_args
           let step1 : Except Err Dict :=
             match ag_args with
             | Option.none => .ok cfg2
             | some g =>
               match sget cfg2 AG_ARGS with
               | some (.dct a) => .ok (sinsert cfg2 AG_ARGS (.dct (dupdate g a)))
               | _ => .error .typeError
           match step1 with
           | .error e => .error e
           | .ok cfg3 =>
             -- lines 200-203: same for the ensemble bundle
             let step2 : Except Err Dict :=
               match ag_args_ensemble with
               | Option.none => .ok cfg3
               | some g =>
                 match sget cfg3 AG_ARGS_ENSEMBLE with
                 | Option.none =>
                   .ok (sinsert cfg3 AG_ARGS_ENSEMBLE (.dct (dupdate g [])))
                 | some (.dct a) =>
                   .ok (sinsert cfg3 AG_ARGS_ENSEMBLE (.dct (dupdate g a)))
                 | some _ => .error .typeError
             match step2 with
             | .error e => .error e
             | .ok cfg4 =>
               -- lines 204-209: same for the fit bundle (created if absent)
               let step3 : Except Err Dict :=
                 match ag_args_fit with
                 | Option.none => .ok cfg4
                 | some g =>
                   let cfgA := if hasKeyS cfg4 AG_ARGS_FIT then cfg4
                               else sinsert cfg4 AG_ARGS_FIT (.dct [])
                   match sget cfgA AG_ARGS_FIT with
                   | some (.dct a) =>
                     .ok (sinsert cfgA AG_ARGS_FIT (.dct (dupdate g a)))
                   | _ => .error .typeError
               match step3 with
               | .error e => .error e
               | .ok cfg5 =>
                 -- lines 210-212: registry default ag_args overlaid by the
                 -- effective bundle
                 let step4 : Except Err Dict :=
                   match cls.default_ag_args with
                   | Option.none => .ok cfg5
                   | some d0 =>
                     match sget cfg5 AG_ARGS with
                     | some (.dct a) => .ok (sinsert cfg5 AG_ARGS (.dct (dupdate d0 a)))
                     | _ => .error .typeError
                 match step4 with
                 | .error e => .error e
                 | .ok cfg6 =>
                   -- lines 213-215: registry default ensemble args
                   match cls.default_ag_args_ensemble problem_type with
                   | Option.none => .ok cfg6
                   | some d0 =>
                     match sget cfg6 AG_ARGS_ENSEMBLE with
                     | Option.none =>
                       .ok (sinsert cfg6 AG_ARGS_ENSEMBLE (.dct (dupdate d0 [])))
                     | some (.dct a) =>
                       .ok (sinsert cfg6 AG_ARGS_ENSEMBLE (.dct (dupdate d0 a)))
                     | some _ => .error .typeError)
      | some _ =>
        -- a non-string, non-class `model_type` is not a registry key
        -- (line 181); Python's unhashable-value corner cases are folded
        -- into the same fatal outcome
        .error .assertionError
      | Option.none => .error .assertionError
    | _ => .error .typeError    -- `ag_args` present but not a dict

/-! ## `is_model_cfg_valid` (presets.py lines 247-265) -/

/-- The validity filter.  The unknown-key warning loop (lines 250-252) is
log-only and not modelled.  The branches short-circuit exactly as the
source's `elif` chain does. -/
def is_model_cfg_valid (model_cfg : Dict) (level : Int)
    (problem_type : Option String) : Except Err Bool :=
  if hasKeyS model_cfg AG_ARGS then
    match sget model_cfg AG_ARGS with
    | some (.dct agA) =>
      (match sget agA "model_type" with
       | Option.none => .ok false                  -- model_type is required
       | some PVal.none => .ok false
       | some _ =>
         if ((sget agA "hyperparameter_tune_kwargs").getD .none).truthy
            && ((sget agA "disable_in_hpo").getD (.b false)).truthy then
           .ok false
         else if !((sget agA "valid_stacker").getD (.b true)).truthy
                 && level > 1 then
           .ok false                               -- not valid as a stacker
         else if !((sget agA "valid_base").getD (.b true)).truthy
                 && level == 1 then
           .ok false                               -- not valid as a base model
         else
           match problem_type with
           | Option.none => .ok true
           | some pt =>
             match sget agA "problem_types" with
             | Option.none => .ok true             -- default `[problem_type]`
             | some container =>
               match pyIn pt container with
               | .ok bIn => .ok bIn
               | .error _ => .error .typeError)
    | _ => .error .typeError     -- `ag_args` present but not a dict: `.get` raises
  else
    .ok false                    -- AG_ARGS is required

/-! ## Priority assignment and admission (presets.py lines 130-137) -/

/-- Lines 130-131: `model_cfg[AG_ARGS]["priority"] =
model_cfg[AG_ARGS].get("priority", default_priorities.get(model_type,
DEFAULT_CUSTOM_MODEL_PRIORITY))`. -/
def assign_priority (model_cfg : Dict) (model_type : PKey)
    (default_priorities : List (String × Int)) : Except Err Dict :=
  match sget model_cfg AG_ARGS with
  | some (.dct agA) =>
    let dflt : PVal :=
      match model_type with
      | .s mt =>
        match default_priorities.find? (fun kv => kv.1 == mt) with
        | some kv => .i kv.2
        | Option.none => .i DEFAULT_CUSTOM_MODEL_PRIORITY
      | _ => .i DEFAULT_CUSTOM_MODEL_PRIORITY
    let p := (sget agA "priority").getD dflt
    .ok (sinsert model_cfg AG_ARGS (.dct (sinsert agA "priority" p)))
  | _ => .error .typeError

/-- Lines 132-137: run the validity filter, strip a present-but-falsy
`ag_args_fit` sub-dict, and either admit the candidate into its priority
bucket or silently drop it.  Bucketed priorities are read as integers
(the modelling restriction stated in the header). -/
def admit_model_cfg (model_cfg : Dict) (level : Int) (problem_type : String) :
    Except Err (Option (Int × Dict)) :=
  match is_model_cfg_valid model_cfg level (some problem_type) with
  | .error e => .error e
  | .ok is_valid =>
    let cfg :=
      match sget model_cfg AG_ARGS_FIT with
      | some v => if v.truthy then model_cfg else dremove model_cfg (ks AG_ARGS_FIT)
      | Option.none => model_cfg
    if is_valid then
      match sget cfg AG_ARGS with
      | some (.dct agA) =>
        (match sget agA "priority" with
         | some (.i p) => .ok (some (p, cfg))
         | _ => .error .typeError)
      | _ => .error .typeError
    else .ok Option.none

/-! ## Level selection (presets.py lines 107-110) -/

/-- `level_key = level if level in hyperparameters.keys() else "default"`;
when `"default"` is also absent the whole spec is wrapped as the
`"default"` level and then read back. -/
def select_level (hyperparameters : Dict) (level : Int) : PVal :=
  match dget hyperparameters (.i level) with
  | some v => v
  | Option.none =>
    match dget hyperparameters (ks "default") with
    | some v => v
    | Option.none => .dct hyperparameters

/-- Modelled from the spec: `ModelFilter.filter_models(models,
included_model_types, excluded_model_types)` (from `autogluon.common`,
not part of the analysed source; section 6 of the spec gives only its
signature).  Modelled as: keep only included types when an include list is
given, then drop excluded types. -/
def filter_models (models : Dict) (included excluded : Option (List String)) :
    Dict :=
  let m1 :=
    match included with
    | some inc =>
      models.filter (fun kv => match kv.1 with
        | .s st => inc.contains st
        | _ => false)
    | Option.none => models
  match excluded with
  | some exc =>
    m1.filter (fun kv => match kv.1 with
      | .s st => !exc.contains st
      | _ => true)
  | Option.none => m1

/-! ## Candidate collection in discovery order (presets.py lines 112-137) -/

/-- Lines 116-117: a bare single config is coerced to a one-element list. -/
def coerce_to_list (v : PVal) : List PVal :=
  match v with
  | .lst l => l
  | v => [v]

/-- Context: the per-call parameters of `get_preset_models` that are
threaded unchanged through the pipeline. -/
structure PresetCtx where
  reg : Registry
  verGe130 : Bool
  path : String
  problem_type : String
  eval_metric : String
  level : Int
  ensemble_kwargs : Option Dict
  ag_args : Option Dict
  ag_args_ensemble : Option Dict
  ag_args_fit : Option Dict
  name_suffix : Option String

/-- Process the variant sequence of one model type in order: clean, assign
priority, admit-or-drop (lines 119-137). -/
def process_variants (ctx : PresetCtx) (dfltPrios : List (String × Int))
    (mtKey : PKey) : List PVal → Except Err (List (Int × Dict))
  | [] => .ok []
  | cfgRaw :: rest =>
    match clean_model_cfg ctx.reg ctx.verGe130 cfgRaw mtKey ctx.ag_args
        ctx.ag_args_ensemble ctx.ag_args_fit ctx.problem_type with
    | .error e => .error e
    | .ok cfg =>
      match assign_priority cfg mtKey dfltPrios with
      | .error e => .error e
      | .ok cfg2 =>
        match admit_model_cfg cfg2 ctx.level ctx.problem_type with
        | .error e => .error e
        | .ok o =>
          match process_variants ctx dfltPrios mtKey rest with
          | .error e => .error e
          | .ok tail =>
            .ok ((match o with
                  | some pc => [pc]
                  | Option.none => []) ++ tail)

/-- Iterate the level's model-type mapping in key order (lines 113-137),
producing the admitted candidates in discovery order, tagged with their
resolved integer priority. -/
def collect_model_cfgs (ctx : PresetCtx) (dfltPrios : List (String × Int)) :
    Dict → Except Err (List (Int × Dict))
  | [] => .ok []
  | (mtKey, v) :: rest =>
    match process_variants ctx dfltPrios mtKey (coerce_to_list v) with
    | .error e => .error e
    | .ok here =>
      match collect_model_cfgs ctx dfltPrios rest with
      | .error e => .error e
      | .ok tail => .ok (here ++ tail)

/-! ## The priority scheduler (presets.py lines 112, 137, 139) -/

/-- Emit, for each priority of `ps` in order, the candidates of that
priority bucket in discovery order (the bucket of `p` is the sublist of
candidates with priority `p`, exactly as the `defaultdict(list)`
accumulates it). -/
def scheduleBlocks (l : List (Int × Dict)) : List Int → List (Int × Dict)
  | [] => []
  | p :: ps => l.filter (fun c => c.1 == p) ++ scheduleBlocks l ps

/-- Line 139: `[model for priority in sorted(keys, reverse=True) for model
in dict[priority]]`. -/
def scheduleByPriority (l : List (Int × Dict)) : List (Int × Dict) :=
  scheduleBlocks l (List.insertionSort (fun a b : Int => a ≥ b) (l.map Prod.fst).dedup)

/-! ## Name allocation (presets.py lines 284-309) -/

/-- The base-name sequence of the disambiguation counter: the original
name first, then `orig_2`, `orig_3`, ... (`f"{name_orig}_{num_increment}"`). -/
def stackerBaseGen (name_orig : String) : Nat → String :=
  fun k => if k = 1 then name_orig else name_orig ++ "_" ++ Nat.repr k

/-- Candidate names tried by the non-ensembled path (line 298-301):
`f"{name_orig}{name_suffix}"`, then `f"{name_orig}_{k}{name_suffix}"`. -/
def nonEnsNameGen (name_orig sfx : String) : Nat → String :=
  fun k => stackerBaseGen name_orig k ++ sfx

/-- Candidate stacker names tried by the ensembled path (lines 303-309):
`f"{name}{name_bag_suffix}_L{level}{name_suffix}"` where `name` moves in
lockstep with the counter. -/
def stackerNameGen (name_orig nbag lvlstr sfx : String) : Nat → String :=
  fun k => stackerBaseGen name_orig k ++ nbag ++ "_L" ++ lvlstr ++ sfx

/-- The `while name in invalid_name_set` loop: starting at index `k`, walk
the candidate sequence until a free name is found.  `fuel` bounds the
number of collision checks; the callers pass `used.length + 1`, which is
proved sufficient (`searchIdx_not_mem`). -/
def searchIdx (used : List String) (gen : Nat → String) :
    Nat → Nat → Nat
  | 0, k => k
  | fuel + 1, k => if used.contains (gen k) then searchIdx used gen fuel (k + 1) else k

/-! ## `model_factory` (presets.py lines 268-342) -/

/-- An instantiated model (the constructor calls on lines 338/340 are
modelled by recording the constructor arguments; training behaviour is
out of scope). -/
structure MInst where
  name : String
  problem_type : String
  eval_metric : String
  hyperparameters : Dict
  isEnsemble : Bool
  /-- Ensemble path: the (lockstep-disambiguated) base model name passed
  inside `model_base_kwargs`. -/
  baseName : Option String
  /-- Ensemble path: the merged ensemble hyperparameters. -/
  ensembleParams : Dict
  normalize_pred_probas : Bool
deriving Repr

/-- Entries of the hyperparameter payload whose string key carries the
reserved `"ag.ens."` routing convention, with the prefix (7 characters)
stripped, in order (lines 317-322). -/
def ag_ens_moved (d : Dict) : Dict :=
  d.filterMap (fun kv => match kv.1 with
    | .s st => if "ag.ens.".data.isPrefixOf st.data then
                 some (ks ((st.data.drop 7).asString), kv.2)
               else Option.none
    | _ => Option.none)

/-- The hyperparameter payload with the routed `"ag.ens."` entries popped
out. -/
def ag_ens_kept (d : Dict) : Dict :=
  d.filter (fun kv => match kv.1 with
    | .s st => !("ag.ens.".data.isPrefixOf st.data)
    | _ => true)

/-- The original name of a candidate (lines 284-292): the explicit
`"name"` AG-arg if set, else prefix + main-name + suffix, with the
main-name defaulting to the type's display-name hint (`ag_name`, falling
back to the class name).  Non-string name fragments (which Python's
f-strings would stringify) are modelled as `TypeError`. -/
def factory_name_orig (agA : Dict) (cls : ModelCls) : Except Err String :=
  match sget agA "name" with
  | some (.s nm) => .ok nm
  | some PVal.none | Option.none =>
    (match (sget agA "name_prefix").getD (.s ""),
           (sget agA "name_main").getD (.s (cls.ag_name.getD cls.clsName)),
           (sget agA "name_suffix").getD (.s "") with
     | .s npre, .s nmain, .s nsuf => .ok (npre ++ nmain ++ nsuf)
     | _, _, _ => .error .typeError)
  | some _ => .error .typeError

/-- The non-ensembled constructed model (lines 297-301, 324-330, 340):
name disambiguated over the non-ensemble candidate sequence. -/
def build_plain (params0 : Dict) (name_orig sfx : String)
    (used : List String) (pt em : String) : MInst :=
  { name := nonEnsNameGen name_orig sfx
      (searchIdx used (nonEnsNameGen name_orig sfx) (used.length + 1) 1),
    problem_type := pt, eval_metric := em,
    hyperparameters := ag_ens_kept params0, isEnsemble := false,
    baseName := Option.none, ensembleParams := [],
    normalize_pred_probas := false }

/-- The ensembled constructed model (lines 302-309, 332-338): the stacker
name is disambiguated, and the base name moves in lockstep with the same
counter. -/
def build_stacker (params0 extra0 ensHp0 : Dict)
    (name_orig nbag lvlstr sfx : String) (used : List String)
    (pt em : String) : MInst :=
  { name := stackerNameGen name_orig nbag lvlstr sfx
      (searchIdx used (stackerNameGen name_orig nbag lvlstr sfx)
        (used.length + 1) 1),
    problem_type := pt, eval_metric := em,
    hyperparameters := ag_ens_kept params0, isEnsemble := true,
    baseName := some (stackerBaseGen name_orig
      (searchIdx used (stackerNameGen name_orig nbag lvlstr sfx)
        (used.length + 1) 1)),
    ensembleParams := dupdate ensHp0 (dupdate extra0 (ag_ens_moved params0)),
    normalize_pred_probas := false }

/-- Dispatch on the ensemble request (lines 294-342), after the payload
has been split off.  `params0` is the hyperparameter payload with the
meta sub-dicts removed; `extra0` the embedded ensemble-ag-args. -/
def model_factory_build (agA : Dict) (params0 extra0 : Dict)
    (name_orig sfx : String) (ekw : Option Dict) (used : List String)
    (lvl : Int) (pt em : String) : Except Err MInst :=
  match ekw with
  | Option.none => .ok (build_plain params0 name_orig sfx used pt em)
  | some ekwd =>
    match (sget agA "name_bag_suffix").getD (.s "_BAG") with
    | .s nbag =>
      (match sget ekwd "hyperparameters" with
       | some (.dct e0) =>
         .ok (build_stacker params0 extra0 e0 name_orig nbag (toString lvl)
           sfx used pt em)
       | some PVal.none =>
         .ok (build_stacker params0 extra0 [] name_orig nbag (toString lvl)
           sfx used pt em)
       | Option.none =>
         .ok (build_stacker params0 extra0 [] name_orig nbag (toString lvl)
           sfx used pt em)
       | some _ => .error .typeError)
    | _ => .error .typeError

/-- `model_factory`: allocate a collision-free name (stacker name on the
ensembled path), strip the meta sub-dicts out of the hyperparameter
payload, route `"ag.ens."`-prefixed keys into the ensemble
hyperparameters, and record the constructed model.  A non-dict
`ag_args_ensemble` payload is modelled as `TypeError`. -/
def model_factory (reg : Registry) (model : Dict)
    (path problem_type eval_metric : String) (name_suffix : Option String)
    (ensemble_kwargs : Option Dict) (invalid_name_set : List String)
    (level : Int) : Except Err MInst :=
  match sget model AG_ARGS with
  | some (.dct agA) =>
    (match sget agA "model_type" with
     | some (.s key) =>
       (match reg.findCls key with
        | Option.none => .error .keyError   -- `key_to_cls` on an unknown key
        | some cls =>
          match factory_name_orig agA cls with
          | .error e => .error e
          | .ok name_orig =>
            match sget model AG_ARGS_ENSEMBLE with
            | some (.dct extra0) =>
              model_factory_build agA
                (dremove (dremove model (ks AG_ARGS)) (ks AG_ARGS_ENSEMBLE))
                extra0 name_orig (name_suffix.getD "") ensemble_kwargs
                invalid_name_set level problem_type eval_metric
            | Option.none =>
              model_factory_build agA
                (dremove (dremove model (ks AG_ARGS)) (ks AG_ARGS_ENSEMBLE))
                [] name_orig (name_suffix.getD "") ensemble_kwargs
                invalid_name_set level problem_type eval_metric
            | some _ => .error .typeError)
     | some _ => .error .keyError   -- non-string stored model type
     | Option.none => .error .keyError)
  | _ => .error .keyError           -- `model[AG_ARGS]` missing or not a dict

/-! ## The final instantiation loop and `get_preset_models`
    (presets.py lines 90-165) -/

/-- Lines 158-159: the `model_args_fit` side-table entry of one model
(recorded when its AG-args carry a `hyperparameter_tune_kwargs` binding). -/
def maf_entry (cfg : Dict) (nm : String) : List (String × Dict) :=
  match sget cfg AG_ARGS with
  | some (.dct agA) =>
    (match sget agA "hyperparameter_tune_kwargs" with
     | some v => [(nm, [(ks "hyperparameter_tune_kwargs", v)])]
     | Option.none => [])
  | _ => []

/-- Lines 143-165: instantiate each scheduled candidate, add its final
name to the used-name set before the next candidate is processed, and
collect the `hyperparameter_tune_kwargs` side table. -/
def run_factory (ctx : PresetCtx) :
    List (Int × Dict) → List String → Except Err (List MInst × List (String × Dict))
  | [], _ => .ok ([], [])
  | (_, cfg) :: rest, invalid_name_set =>
    match model_factory ctx.reg cfg ctx.path ctx.problem_type ctx.eval_metric
        ctx.name_suffix ctx.ensemble_kwargs invalid_name_set ctx.level with
    | .error e => .error e
    | .ok m =>
      match run_factory ctx rest (invalid_name_set ++ [m.name]) with
      | .error e => .error e
      | .ok pr => .ok (m :: pr.1, maf_entry cfg m.name ++ pr.2)

/-- Resolve `default_priorities` (lines 101-105): caller-supplied, else
derived from the registry's priority map. -/
def resolve_default_priorities (reg : Registry) (problem_type : String)
    (default_priorities : Option (List (String × Int))) : List (String × Int) :=
  match default_priorities with
  | some d => d
  | Option.none => reg.priorityMap problem_type

/-- `get_preset_models`.  `process_hyperparameters` (from
`autogluon.core.trainer.utils`, not part of the analysed source and not
described by the spec) is modelled as the identity, and the optional
`hyperparameter_preprocess_func` is not supplied (its default).  The
unsupported-problem-type check (lines 95-96) precedes everything else. -/
def get_preset_models (ctx : PresetCtx) (hyperparameters : Dict)
    (default_priorities : Option (List (String × Int)))
    (invalid_model_names : Option (List String))
    (included_model_types excluded_model_types : Option (List String)) :
    Except Err (List MInst × List (String × Dict)) :=
  if ¬ [BINARY, MULTICLASS, REGRESSION, SOFTCLASS, QUANTILE].contains
      ctx.problem_type then
    .error .notImplementedError
  else
    match select_level hyperparameters ctx.level with
    | .dct hp_level0 =>
      match collect_model_cfgs ctx
          (resolve_default_priorities ctx.reg ctx.problem_type
            default_priorities)
          (filter_models hp_level0 included_model_types
            excluded_model_types) with
      | .error e => .error e
      | .ok discovered =>
        run_factory ctx (scheduleByPriority discovered)
          (invalid_model_names.getD [])
    | _ => .error .typeError   -- the level's sub-mapping must be a dict

/-! ## `get_preset_models_softclass` (presets.py lines 346-378) -/

/-- The duplicate-removal comprehension of line 361:
`[j for n, j in enumerate(l) if j not in l[n+1:]]` (keeps the last of any
group of `==`-equal configs). -/
def dedupKeepLast : List PVal → List PVal
  | [] => []
  | x :: xs => if xs.any (fun e => pyEq x e) then dedupKeepLast xs
               else x :: dedupKeepLast xs

/-- The RF rewrite parameters of line 358. -/
def rf_newparams : Dict :=
  [(ks "criterion", .s "squared_error"),
   (ks AG_ARGS, .dct [(ks "name_suffix", .s "MSE")])]

/-- The allow-list restriction of line 352 (a dict comprehension keeping
only the standard softclass model types, in order). -/
def softclass_std_filter (hyperparameters : Dict) : Dict :=
  hyperparameters.filter (fun kv =>
    match kv.1 with
    | .s st => ["GBM", "NN_TORCH", "CAT", "ENS_WEIGHTED"].contains st
    | _ => false)

/-- Lines 359-360: overwrite each RF variant (which must be a mapping)
with the MSE rewrite parameters. -/
def rf_rewrite_list : List PVal → Except Err (List PVal)
  | [] => .ok []
  | it :: rest =>
    match it with
    | .dct d =>
      (match rf_rewrite_list rest with
       | .error e => .error e
       | .ok tail => .ok (.dct (dupdate d rf_newparams) :: tail))
    | _ => .error .typeError

/-- Lines 349-362: restrict the spec to the fixed allow-list, rewrite
every RF variant's criterion (each variant must be a mapping and the RF
entry a sequence), and drop duplicate RF variants arising from the
rewrite. -/
def softclass_standard_hp (hyperparameters : Dict) : Except Err Dict :=
  match dget hyperparameters (ks "RF") with
  | Option.none => .ok (softclass_std_filter hyperparameters)
  | some (.lst items) =>
    (match rf_rewrite_list items with
     | .error e => .error e
     | .ok items2 =>
       .ok (sinsert (softclass_std_filter hyperparameters) "RF"
         (.lst (dedupKeepLast items2))))
  | some _ => .error .typeError   -- indexing a non-sequence RF entry fails

/-- `get_preset_models_softclass`: specialize to the soft-classification
problem type and the `soft_log_loss` metric, apply the RF rewrite, fail
with `ValueError` when no models survive, and flag every produced model to
normalize its predicted probabilities. -/
def get_preset_models_softclass (ctx : PresetCtx) (hyperparameters : Dict)
    (default_priorities : Option (List (String × Int)))
    (invalid_model_names : Option (List String))
    (included_model_types excluded_model_types : Option (List String)) :
    Except Err (List MInst × List (String × Dict)) :=
  match softclass_standard_hp hyperparameters with
  | .error e => .error e
  | .ok hstd =>
    match get_preset_models
        { ctx with problem_type := SOFTCLASS, eval_metric := "soft_log_loss" }
        hstd default_priorities invalid_model_names
        included_model_types excluded_model_types with
    | .error e => .error e
    | .ok pr =>
      if pr.1.length = 0 then .error .valueError
      else .ok (pr.1.map (fun m => { m with normalize_pred_probas := true }),
                pr.2)

/-! ## Injectivity of the decimal rendering used by the disambiguation
    counter (`f"..._{num_increment}..."` = `Nat.repr`) -/

/-- Fuel-free restatement of `Nat.toDigits 10`. -/
def natDigits (n : Nat) : List Char :=
  if n < 10 then [Nat.digitChar n]
  else natDigits (n / 10) ++ [Nat.digitChar (n % 10)]
decreasing_by
  exact Nat.div_lt_self (by omega) (by omega)

/-- Decimal digit value. -/
def digitVal (c : Char) : Nat := c.toNat - 48

/-- Witness fixture: a one-model registry. -/
def wCls : ModelCls :=
  { clsName := "RFModel", ag_name := some "RandomForest",
    default_ag_args := some [(ks "a", .i 1), (ks "b", .i 2)],
    default_ag_args_ensemble := fun _ => Option.none }

def wReg : Registry :=
  { key_to_cls := [("RF", wCls)], priorityMap := fun _ => [] }

/-- Witness fixtures: a two-type registry with distinct priorities. -/
def wCls2 : ModelCls :=
  { clsName := "LGBModel", ag_name := some "LightGBM",
    default_ag_args := Option.none,
    default_ag_args_ensemble := fun _ => Option.none }

def wReg2 : Registry :=
  { key_to_cls := [("GBM", wCls2), ("RF", wCls2)],
    priorityMap := fun _ => [("GBM", 90), ("RF", 100)] }

def wCtx : PresetCtx :=
  { reg := wReg2, verGe130 := true, path := "p", problem_type := BINARY,
    eval_metric := "acc", level := 1, ensemble_kwargs := Option.none,
    ag_args := Option.none, ag_args_ensemble := Option.none,
    ag_args_fit := Option.none, name_suffix := Option.none }

def wHp : Dict := [(ks "GBM", .dct []), (ks "RF", .dct [])]

/-- The discovery list of `wCtx`/`wHp`: GBM (priority 90) before RF
(priority 100) in discovery order. -/
def wL : List (Int × Dict) :=
  [(90, [(ks "ag_args",
      .dct [(ks "model_type", .s "GBM"), (ks "priority", .i 90)])]),
   (100, [(ks "ag_args",
      .dct [(ks "model_type", .s "RF"), (ks "priority", .i 100)])])]

def wM1 : MInst :=
  { name := "LightGBM_2", problem_type := BINARY, eval_metric := "acc",
    hyperparameters := [], isEnsemble := false, baseName := Option.none,
    ensembleParams := [], normalize_pred_probas := false }

def wM2 : MInst := { wM1 with name := "LightGBM_3" }

def wHpSc : Dict :=
  [(ks "GBM", .lst [.dct []]),
   (ks "RF", .lst [.dct [(ks "criterion", .s "entropy")]])]

def wHstd : Dict :=
  [(ks "GBM", .lst [.dct []]),
   (ks "RF", .lst [.dct [(ks "criterion", .s "squared_error"),
     (ks "ag_args", .dct [(ks "name_suffix", .s "MSE")])]])]

def wRl : List PVal :=
  [.dct [(ks "criterion", .s "squared_error"),
    (ks "ag_args", .dct [(ks "name_suffix", .s "MSE")])]]

def wMsc1 : MInst :=
  { name := "LightGBMMSE", problem_type := SOFTCLASS,
    eval_metric := "soft_log_loss",
    hyperparameters := [(ks "criterion", .s "squared_error")],
    isEnsemble := false, baseName := Option.none, ensembleParams := [],
    normalize_pred_probas := true }

def wMsc2 : MInst := { wMsc1 with name := "LightGBM", hyperparameters := [] }

theorem dget_cons (kv : PKey × PVal) (rest : Dict) (k : PKey) :
    dget (kv :: rest) k = cond (kv.1 == k) (some kv.2) (dget rest k) := by
  cases h : kv.1 == k <;> simp [dget, List.find?_cons, h]

theorem hasKey_cons (kv : PKey × PVal) (rest : Dict) (k : PKey) :
    hasKey (kv :: rest) k = ((kv.1 == k) || hasKey rest k) := by
  simp [hasKey]

theorem hasKey_false_iff {d : Dict} {k : PKey} :
    hasKey d k = false ↔ ∀ kv ∈ d, kv.1 ≠ k := by
  simp [hasKey, List.any_eq_false]

theorem dget_eq_none_of_hasKey_false {d : Dict} {k : PKey}
    (h : hasKey d k = false) : dget d k = none := by
  induction d with
  | nil => rfl
  | cons kv rest ih =>
    rw [hasKey_cons, Bool.or_eq_false_iff] at h
    rw [dget_cons, h.1, Bool.cond_false]
    exact ih h.2

theorem hasKey_true_of_dget {d : Dict} {k : PKey} {v : PVal}
    (h : dget d k = some v) : hasKey d k = true := by
  by_contra hc
  rw [Bool.not_eq_true] at hc
  rw [dget_eq_none_of_hasKey_false hc] at h
  exact Option.noConfusion h

theorem dget_map_replace_self {d : Dict} {k : PKey} (v : PVal)
    (h : hasKey d k = true) :
    dget (d.map (fun kv => cond (kv.1 == k) (k, v) kv)) k = some v := by
  induction d with
  | nil => simp [hasKey] at h
  | cons kv rest ih =>
    rw [hasKey_cons] at h
    cases h1 : kv.1 == k with
    | true =>
      rw [List.map_cons, h1, Bool.cond_true, dget_cons]
      simp
    | false =>
      rw [h1, Bool.false_or] at h
      rw [List.map_cons, h1, Bool.cond_false, dget_cons, h1, Bool.cond_false]
      exact ih h

theorem dget_append_single_self {d : Dict} {k : PKey} (v : PVal)
    (h : hasKey d k = false) :
    dget (d ++ [(k, v)]) k = some v := by
  induction d with
  | nil => simp [dget_cons]
  | cons kv rest ih =>
    rw [hasKey_cons, Bool.or_eq_false_iff] at h
    rw [List.cons_append, dget_cons, h.1, Bool.cond_false]
    exact ih h.2

theorem dget_dinsert_self (d : Dict) (k : PKey) (v : PVal) :
    dget (dinsert d k v) k = some v := by
  unfold dinsert
  cases h : d.any (fun kv => kv.1 == k) with
  | true => rw [Bool.cond_true]; exact dget_map_replace_self v h
  | false => rw [Bool.cond_false]; exact dget_append_single_self v h

/-- Replacing the binding of `k` does not affect lookups of other keys. -/
theorem dget_map_replace (d : Dict) (k k' : PKey) (v : PVal) (h : k' ≠ k) :
    dget (d.map (fun kv => cond (kv.1 == k) (k, v) kv)) k' = dget d k' := by
  induction d with
  | nil => rfl
  | cons kv rest ih =>
    cases h1 : kv.1 == k with
    | true =>
      have hk : kv.1 = k := by simpa using h1
      have h2 : (k == k') = false := by simp [Ne.symm h]
      have h3 : (kv.1 == k') = false := by simp [hk, Ne.symm h]
      rw [List.map_cons, h1, Bool.cond_true, dget_cons, dget_cons]
      simp only [h2, h3, Bool.cond_false]
      exact ih
    | false =>
      rw [List.map_cons, h1, Bool.cond_false, dget_cons, dget_cons]
      cases h2 : kv.1 == k' with
      | true => simp
      | false => simp only [Bool.cond_false]; exact ih

theorem dget_append_single (d : Dict) (k k' : PKey) (v : PVal) (h : k' ≠ k) :
    dget (d ++ [(k, v)]) k' = dget d k' := by
  induction d with
  | nil =>
    have h2 : (k == k') = false := by simp [Ne.symm h]
    simp [dget_cons, h2, dget]
  | cons kv rest ih =>
    cases h1 : kv.1 == k' with
    | true =>
      rw [List.cons_append, dget_cons, dget_cons, h1]
      simp only [Bool.cond_true]
    | false =>
      rw [List.cons_append, dget_cons, dget_cons, h1, Bool.cond_false,
        Bool.cond_false]
      exact ih

theorem dget_dinsert_ne (d : Dict) (k k' : PKey) (v : PVal) (h : k' ≠ k) :
    dget (dinsert d k v) k' = dget d k' := by
  unfold dinsert
  cases hh : d.any (fun kv => kv.1 == k) with
  | true => rw [Bool.cond_true]; exact dget_map_replace d k k' v h
  | false => rw [Bool.cond_false]; exact dget_append_single d k k' v h

theorem hasKey_dinsert_self (d : Dict) (k : PKey) (v : PVal) :
    hasKey (dinsert d k v) k = true :=
  hasKey_true_of_dget (dget_dinsert_self d k v)

/-- Re-inserting at an existing key overwrites the previous insertion. -/
theorem dinsert_dinsert_same (d : Dict) (k : PKey) (v w : PVal) :
    dinsert (dinsert d k v) k w = dinsert d k w := by
  cases h : d.any (fun kv => kv.1 == k) with
  | true =>
    have e1 : dinsert d k v = d.map (fun kv => cond (kv.1 == k) (k, v) kv) := by
      unfold dinsert; rw [h, Bool.cond_true]
    have e2 : dinsert d k w = d.map (fun kv => cond (kv.1 == k) (k, w) kv) := by
      unfold dinsert; rw [h, Bool.cond_true]
    have hk2 : (d.map (fun kv => cond (kv.1 == k) (k, v) kv)).any
        (fun kv => kv.1 == k) = true := by
      have h2 := hasKey_dinsert_self d k v
      rw [e1] at h2
      exact h2
    have e3 : dinsert (d.map (fun kv => cond (kv.1 == k) (k, v) kv)) k w
        = (d.map (fun kv => cond (kv.1 == k) (k, v) kv)).map
            (fun kv => cond (kv.1 == k) (k, w) kv) := by
      unfold dinsert; rw [hk2, Bool.cond_true]
    rw [e1, e3, e2, List.map_map]
    apply List.map_congr_left
    intro kv _
    cases hkk : kv.1 == k with
    | true =>
      have hk : kv.1 = k := by simpa using hkk
      simp [Function.comp, hkk, hk]
    | false => simp [Function.comp, hkk]
  | false =>
    have e1 : dinsert d k v = d ++ [(k, v)] := by
      unfold dinsert; rw [h, Bool.cond_false]
    have e2 : dinsert d k w = d ++ [(k, w)] := by
      unfold dinsert; rw [h, Bool.cond_false]
    have hk2 : (d ++ [(k, v)]).any (fun kv => kv.1 == k) = true := by
      have h2 := hasKey_dinsert_self d k v
      rw [e1] at h2
      exact h2
    have e3 : dinsert (d ++ [(k, v)]) k w
        = (d ++ [(k, v)]).map (fun kv => cond (kv.1 == k) (k, w) kv) := by
      unfold dinsert; rw [hk2, Bool.cond_true]
    rw [e1, e3, e2, List.map_append]
    have hmapid : d.map (fun kv => cond (kv.1 == k) (k, w) kv) = d.map id := by
      apply List.map_congr_left
      intro kv hkv
      have hne := (hasKey_false_iff (d := d) (k := k)).mp h kv hkv
      have hb : (kv.1 == k) = false := by simp [hne]
      rw [hb, Bool.cond_false]
      rfl
    congr 1
    · rw [hmapid, List.map_id]
    · simp

/-- Every key of `dinsert d k v` is a key of `d` or is `k`. -/
theorem mem_dinsert (d : Dict) (k : PKey) (v : PVal) :
    ∀ kv ∈ dinsert d k v, kv.1 ∈ d.map Prod.fst ∨ kv.1 = k := by
  intro kv hkv
  unfold dinsert at hkv
  cases h : d.any (fun kvv => kvv.1 == k) with
  | true =>
    rw [h, Bool.cond_true, List.mem_map] at hkv
    obtain ⟨kv0, hkv0, he⟩ := hkv
    cases h1 : kv0.1 == k with
    | true =>
      rw [h1, Bool.cond_true] at he
      right; rw [← he]
    | false =>
      rw [h1, Bool.cond_false] at he
      left; rw [← he]; exact List.mem_map_of_mem Prod.fst hkv0
  | false =>
    rw [h, Bool.cond_false, List.mem_append, List.mem_singleton] at hkv
    rcases hkv with h1 | h1
    · left; exact List.mem_map_of_mem Prod.fst h1
    · right; rw [h1]

theorem toDigitsCore_eq_natDigits :
    ∀ (fuel n : Nat) (ds : List Char), n < fuel →
      Nat.toDigitsCore 10 fuel n ds = natDigits n ++ ds := by
  intro fuel
  induction fuel with
  | zero => intro n ds h; omega
  | succ fuel ih =>
    intro n ds h
    by_cases h10 : n < 10
    · have hq : n / 10 = 0 := Nat.div_eq_of_lt h10
      have hm : n % 10 = n := Nat.mod_eq_of_lt h10
      rw [Nat.toDigitsCore, hq, if_pos rfl, natDigits, if_pos h10, hm]
      rfl
    · have hq : ¬ n / 10 = 0 := by
        intro hc
        have h2 : n < 10 := by
          have h3 := Nat.div_add_mod n 10
          have h4 : n % 10 < 10 := Nat.mod_lt n (by omega)
          omega
        omega
      have hlt : n / 10 < fuel := by
        have h1 : n / 10 < n := Nat.div_lt_self (by omega) (by omega)
        omega
      rw [Nat.toDigitsCore]
      simp only [hq, if_false]
      rw [ih (n / 10) (Nat.digitChar (n % 10) :: ds) hlt]
      conv_rhs => rw [natDigits]
      rw [if_neg h10, List.append_assoc]
      rfl

theorem toDigits_eq_natDigits (n : Nat) :
    Nat.toDigits 10 n = natDigits n := by
  rw [Nat.toDigits, toDigitsCore_eq_natDigits (n + 1) n [] (by omega),
    List.append_nil]

theorem repr_eq_natDigits (n : Nat) :
    Nat.repr n = (natDigits n).asString := by
  rw [Nat.repr, toDigits_eq_natDigits]

theorem digitVal_digitChar {d : Nat} (h : d < 10) :
    digitVal (Nat.digitChar d) = d := by
  interval_cases d <;> decide

theorem foldl_natDigits (n : Nat) :
    ∀ a : Nat, List.foldl (fun acc c => 10 * acc + digitVal c) a (natDigits n)
      = a * 10 ^ (natDigits n).length + n := by
  induction n using Nat.strong_induction_on with
  | _ n ih =>
    intro a
    by_cases h10 : n < 10
    · rw [natDigits, if_pos h10]
      simp [digitVal_digitChar h10]
      omega
    · have hlt : n / 10 < n := Nat.div_lt_self (by omega) (by omega)
      rw [natDigits, if_neg h10, List.foldl_append, ih (n / 10) hlt a,
        List.length_append]
      simp only [List.foldl_cons, List.foldl_nil, List.length_cons,
        List.length_nil]
      rw [digitVal_digitChar (Nat.mod_lt n (by omega))]
      have hdm : 10 * (n / 10) + n % 10 = n := Nat.div_add_mod n 10
      ring_nf
      omega

theorem natDigits_injective : Function.Injective natDigits := by
  intro n m h
  have hn := foldl_natDigits n 0
  have hm := foldl_natDigits m 0
  rw [h] at hn
  omega

theorem natDigits_ne_nil (n : Nat) : natDigits n ≠ [] := by
  rw [natDigits]
  by_cases h10 : n < 10
  · simp [h10]
  · simp [h10]

theorem repr_injective : Function.Injective Nat.repr := by
  intro n m h
  apply natDigits_injective
  rw [repr_eq_natDigits, repr_eq_natDigits] at h
  have : (natDigits n).asString.data = (natDigits m).asString.data := by rw [h]
  simpa [List.asString] using this

theorem length_repr_pos (n : Nat) : 0 < (Nat.repr n).length := by
  rw [repr_eq_natDigits]
  have := natDigits_ne_nil n
  cases hd : natDigits n with
  | nil => exact absurd hd this
  | cons c rest => simp [String.length, List.asString, hd]

/-! ## The disambiguation counter reaches a free name -/


theorem stackerBaseGen_injective (orig : String) :
    Function.Injective (stackerBaseGen orig) := by
  intro j k h
  unfold stackerBaseGen at h
  by_cases hj : j = 1 <;> by_cases hk : k = 1
  · rw [hj, hk]
  · rw [if_pos hj, if_neg hk] at h
    have hd := congrArg String.data h
    simp only [String.data_append] at hd
    have hl := congrArg List.length hd
    simp only [List.length_append] at hl
    have hp := length_repr_pos k
    have hud : ("_" : String).data.length = 1 := by decide
    have : (Nat.repr k).length = (Nat.repr k).data.length := rfl
    omega
  · rw [if_neg hj, if_pos hk] at h
    have hd := congrArg String.data h
    simp only [String.data_append] at hd
    have hl := congrArg List.length hd
    simp only [List.length_append] at hl
    have hp := length_repr_pos j
    have hud : ("_" : String).data.length = 1 := by decide
    have : (Nat.repr j).length = (Nat.repr j).data.length := rfl
    omega
  · rw [if_neg hj, if_neg hk] at h
    have hd := congrArg String.data h
    simp only [String.data_append, List.append_assoc] at hd
    have h2 := List.append_cancel_left hd
    have h3 := List.append_cancel_left h2
    exact repr_injective (String.ext h3)

theorem baseGen_append_injective (orig tail : String) :
    Function.Injective (fun k => stackerBaseGen orig k ++ tail) := by
  intro j k h
  apply stackerBaseGen_injective orig
  have hd := congrArg String.data h
  simp only [String.data_append] at hd
  exact String.ext (List.append_cancel_right hd)

theorem nonEnsNameGen_injective (orig sfx : String) :
    Function.Injective (nonEnsNameGen orig sfx) :=
  baseGen_append_injective orig sfx

theorem stackerNameGen_injective (orig nbag lvlstr sfx : String) :
    Function.Injective (stackerNameGen orig nbag lvlstr sfx) := by
  intro j k h
  apply stackerBaseGen_injective orig
  have hd := congrArg String.data h
  simp only [stackerNameGen, String.data_append, List.append_assoc] at hd
  exact String.ext (List.append_cancel_right hd)

/-- If some index within the fuel budget yields a free name, the returned
index yields a free name. -/
theorem searchIdx_free (used : List String) (gen : Nat → String) :
    ∀ (fuel k j : Nat), j < fuel → used.contains (gen (k + j)) = false →
      used.contains (gen (searchIdx used gen fuel k)) = false := by
  intro fuel
  induction fuel with
  | zero => intro k j hj _; omega
  | succ fuel ih =>
    intro k j hj hfree
    rw [searchIdx]
    cases hck : used.contains (gen k) with
    | false => simp only [hck, Bool.false_eq_true, if_false]
    | true =>
      simp only [hck, if_true]
      cases j with
      | zero =>
        rw [Nat.add_zero] at hfree
        rw [hfree] at hck
        exact Bool.noConfusion hck
      | succ j' =>
        refine ih (k + 1) j' (by omega) ?_
        have : k + 1 + j' = k + (j' + 1) := by omega
        rw [this]
        exact hfree

/-- Pigeonhole: an injective name generator escapes any finite used-name
set within `used.length + 1` consecutive indices. -/
theorem exists_free_index (used : List String) (gen : Nat → String)
    (hinj : Function.Injective gen) (k : Nat) :
    ∃ j, j < used.length + 1 ∧ used.contains (gen (k + j)) = false := by
  by_contra hc
  push_neg at hc
  have hall : ∀ j, j < used.length + 1 → gen (k + j) ∈ used := by
    intro j hj
    have h1 := hc j hj
    have h2 : used.contains (gen (k + j)) = true := by
      cases hb : used.contains (gen (k + j)) with
      | false => exact absurd hb h1
      | true => rfl
    simpa [List.contains, List.elem_iff] using h2
  set L := (List.range (used.length + 1)).map (fun j => gen (k + j)) with hL
  have hnodup : L.Nodup := by
    apply List.Nodup.map
    · intro a b hab
      have := hinj hab
      omega
    · exact List.nodup_range _
  have hlen : L.length = used.length + 1 := by simp [hL]
  have hsubF : L.toFinset ⊆ used.toFinset := by
    intro x hx
    rw [List.mem_toFinset] at hx ⊢
    rw [hL, List.mem_map] at hx
    obtain ⟨j, hj, he⟩ := hx
    rw [← he]
    exact hall j (List.mem_range.mp hj)
  have h1 : L.toFinset.card = used.length + 1 := by
    rw [List.toFinset_card_of_nodup hnodup, hlen]
  have h2 := Finset.card_le_card hsubF
  have h3 := List.toFinset_card_le (l := used)
  omega

/-- Combining the two: the fuel the callers pass suffices, and the
returned name is outside the used set. -/
theorem searchIdx_not_mem (used : List String) (gen : Nat → String)
    (hinj : Function.Injective gen) (k : Nat) :
    gen (searchIdx used gen (used.length + 1) k) ∉ used := by
  obtain ⟨j, hj, hfree⟩ := exists_free_index used gen hinj k
  have := searchIdx_free used gen (used.length + 1) k j hj hfree
  intro hmem
  have : used.contains (gen (searchIdx used gen (used.length + 1) k)) = true := by
    simpa [List.contains, List.elem_iff] using hmem
  rw [this] at *
  simp_all

/-- The name built by `model_factory_build` is outside the used-name set
it was given. -/
theorem model_factory_build_name_free {agA params0 extra0 : Dict}
    {name_orig sfx : String} {ekw : Option Dict} {used : List String}
    {lvl : Int} {pt em : String} {m : MInst}
    (h : model_factory_build agA params0 extra0 name_orig sfx ekw used lvl pt em
      = .ok m) : m.name ∉ used := by
  unfold model_factory_build at h
  repeat'
    first
      | exact Except.noConfusion h
      | split at h
  all_goals injection h with h2
  all_goals subst h2
  · exact searchIdx_not_mem used (nonEnsNameGen _ _)
      (nonEnsNameGen_injective _ _) 1
  all_goals
    exact searchIdx_not_mem used (stackerNameGen _ _ _ _)
      (stackerNameGen_injective _ _ _ _) 1

/-- The name registered by `model_factory` (the stacker name on the
ensembled path) is outside the used-name set it was given. -/
theorem model_factory_name_free (reg : Registry) (model : Dict)
    (path pt em : String) (nsfx : Option String) (ekw : Option Dict)
    (used : List String) (lvl : Int) (m : MInst)
    (h : model_factory reg model path pt em nsfx ekw used lvl = .ok m) :
    m.name ∉ used := by
  unfold model_factory at h
  repeat'
    first
      | exact Except.noConfusion h
      | split at h
  all_goals exact model_factory_build_name_free h

/-- The instantiation loop never reuses a name: all produced names are
pairwise distinct and outside the initial used-name set. -/
theorem run_factory_names (ctx : PresetCtx) :
    ∀ (cfgs : List (Int × Dict)) (used : List String) (ms : List MInst)
      (maf : List (String × Dict)),
      run_factory ctx cfgs used = .ok (ms, maf) →
      (ms.map (fun m => m.name)).Nodup ∧ ∀ x ∈ ms, x.name ∉ used := by
  intro cfgs
  induction cfgs with
  | nil =>
    intro used ms maf h
    unfold run_factory at h
    injection h with h2
    injection h2 with hms hmaf
    rw [← hms]
    exact ⟨List.nodup_nil, by intro x hx; exact absurd hx (List.not_mem_nil x)⟩
  | cons c rest ih =>
    intro used ms maf h
    obtain ⟨p, cfg⟩ := c
    unfold run_factory at h
    split at h
    · exact Except.noConfusion h
    · rename_i m hm
      split at h
      · exact Except.noConfusion h
      · rename_i pr hrec
        obtain ⟨ms', mafs⟩ := pr
        injection h with h2
        injection h2 with hms hmaf
        obtain ⟨hnodup', hfree'⟩ := ih (used ++ [m.name]) ms' mafs hrec
        simp only at hms
        have hmfree : m.name ∉ used :=
          model_factory_name_free ctx.reg cfg ctx.path ctx.problem_type
            ctx.eval_metric ctx.name_suffix ctx.ensemble_kwargs used ctx.level
            m hm
        subst hms
        constructor
        · rw [List.map_cons]
          refine List.Nodup.cons ?_ hnodup'
          intro hmem
          rw [List.mem_map] at hmem
          obtain ⟨x, hx, hxe⟩ := hmem
          have := hfree' x hx
          rw [hxe] at this
          exact this (by simp)
        · intro x hx
          rcases List.mem_cons.mp hx with hx1 | hx2
          · rw [hx1]; exact hmfree
          · have := hfree' x hx2
            intro hc
            exact this (List.mem_append_left _ hc)

theorem scheduleBlocks_filter_not_mem (l : List (Int × Dict)) :
    ∀ (ps : List Int) (q : Int), q ∉ ps →
      (scheduleBlocks l ps).filter (fun c => c.1 == q) = [] := by
  intro ps
  induction ps with
  | nil => intro q _; rfl
  | cons p ps ih =>
    intro q hq
    have hqp : q ≠ p := fun hc => hq (hc ▸ List.mem_cons_self p ps)
    have hqs : q ∉ ps := fun hc => hq (List.mem_cons_of_mem p hc)
    rw [scheduleBlocks, List.filter_append, ih q hqs, List.append_nil]
    rw [List.filter_eq_nil_iff]
    intro c hc
    have := (List.mem_filter.mp hc).2
    have hcp : c.1 = p := by simpa using this
    simp [hcp, Ne.symm hqp]

theorem scheduleBlocks_filter_mem (l : List (Int × Dict)) :
    ∀ (ps : List Int) (q : Int), ps.Nodup → q ∈ ps →
      (scheduleBlocks l ps).filter (fun c => c.1 == q)
        = l.filter (fun c => c.1 == q) := by
  intro ps
  induction ps with
  | nil => intro q _ hq; exact absurd hq (List.not_mem_nil q)
  | cons p ps ih =>
    intro q hnd hq
    rw [scheduleBlocks, List.filter_append]
    rcases List.mem_cons.mp hq with hqp | hqs
    · subst hqp
      have hq' : q ∉ ps := (List.nodup_cons.mp hnd).1
      rw [scheduleBlocks_filter_not_mem l ps q hq', List.append_nil,
        List.filter_filter]
      apply List.filter_congr
      intro c _
      simp [Bool.and_self]
    · have hqp : q ≠ p := by
        intro hc
        subst hc
        exact (List.nodup_cons.mp hnd).1 hqs
      have h1 : (l.filter (fun c => c.1 == p)).filter (fun c => c.1 == q) = [] := by
        rw [List.filter_eq_nil_iff]
        intro c hc
        have := (List.mem_filter.mp hc).2
        have hcp : c.1 = p := by simpa using this
        simp [hcp, Ne.symm hqp]
      rw [h1, List.nil_append]
      exact ih q (List.nodup_cons.mp hnd).2 hqs

theorem fst_mem_of_mem_scheduleBlocks (l : List (Int × Dict)) :
    ∀ (ps : List Int) (x : Int × Dict), x ∈ scheduleBlocks l ps → x.1 ∈ ps := by
  intro ps
  induction ps with
  | nil => intro x hx; exact absurd hx (List.not_mem_nil x)
  | cons p ps ih =>
    intro x hx
    rw [scheduleBlocks, List.mem_append] at hx
    rcases hx with hx | hx
    · have := (List.mem_filter.mp hx).2
      have : x.1 = p := by simpa using this
      rw [this]; exact List.mem_cons_self p ps
    · exact List.mem_cons_of_mem p (ih x hx)

theorem sorted_scheduleBlocks (l : List (Int × Dict)) :
    ∀ ps : List Int, ps.Sorted (· ≥ ·) →
      ((scheduleBlocks l ps).map Prod.fst).Sorted (· ≥ ·) := by
  intro ps
  induction ps with
  | nil => intro _; exact List.sorted_nil
  | cons p ps ih =>
    intro hs
    rw [scheduleBlocks, List.map_append]
    rw [List.Sorted, List.pairwise_append]
    refine ⟨?_, ih hs.of_cons, ?_⟩
    · apply List.pairwise_of_forall_mem_list
      intro a ha b hb
      rw [List.mem_map] at ha hb
      obtain ⟨ca, hca, hea⟩ := ha
      obtain ⟨cb, hcb, heb⟩ := hb
      have h1 : ca.1 = p := by simpa using (List.mem_filter.mp hca).2
      have h2 : cb.1 = p := by simpa using (List.mem_filter.mp hcb).2
      rw [← hea, ← heb, h1, h2]
    · intro a ha b hb
      rw [List.mem_map] at ha hb
      obtain ⟨ca, hca, hea⟩ := ha
      obtain ⟨cb, hcb, heb⟩ := hb
      have h1 : ca.1 = p := by simpa using (List.mem_filter.mp hca).2
      have h2 : cb.1 ∈ ps := fst_mem_of_mem_scheduleBlocks l ps cb hcb
      rw [← hea, ← heb, h1]
      exact List.rel_of_sorted_cons hs cb.1 h2

/-- The scheduled list is non-increasing in priority. -/
theorem scheduleByPriority_sorted (l : List (Int × Dict)) :
    ((scheduleByPriority l).map Prod.fst).Sorted (· ≥ ·) := by
  unfold scheduleByPriority
  apply sorted_scheduleBlocks
  exact List.sorted_insertionSort (fun a b : Int => a ≥ b) _

/-- Stability: within each priority, the scheduled list preserves
discovery order (it is exactly the filtered discovery list). -/
theorem scheduleByPriority_stable (l : List (Int × Dict)) (q : Int) :
    (scheduleByPriority l).filter (fun c => c.1 == q)
      = l.filter (fun c => c.1 == q) := by
  unfold scheduleByPriority
  set ps := List.insertionSort (fun a b : Int => a ≥ b) (l.map Prod.fst).dedup
    with hps
  have hperm : ps.Perm (l.map Prod.fst).dedup :=
    List.perm_insertionSort (fun a b : Int => a ≥ b) _
  have hnd : ps.Nodup := hperm.nodup_iff.mpr (List.nodup_dedup _)
  by_cases hq : q ∈ ps
  · exact scheduleBlocks_filter_mem l ps q hnd hq
  · rw [scheduleBlocks_filter_not_mem l ps q hq]
    have hq2 : q ∉ l.map Prod.fst := by
      intro hc
      exact hq (hperm.mem_iff.mpr ((List.mem_dedup).mpr hc))
    symm
    rw [List.filter_eq_nil_iff]
    intro c hc
    intro hb
    have : c.1 = q := by simpa using hb
    exact hq2 (this ▸ List.mem_map_of_mem Prod.fst hc)

/-! ## Claim theorems -/

/-- **C1** — Merge precedence of argument layers.  For every variant
config whose own AG-args bundle `v` does not yet fix a model type, every
caller-supplied global override bundle `g`, and every registry default
bundle `d0` of the (resolvable) model type: the cleaned config's resolved
AG-args bundle is exactly `d0.update(g.update(v'))`, where `v'` is the
variant bundle extended with the resolved `model_type` bookkeeping key —
i.e. the global override overlaid with the variant's own AG-args (variant
keys win), then the registry default overlaid with that effective bundle
(effective keys win).  In particular (see the witness), with defaults
`{a:1, b:2}`, global override `{b:3, c:4}` and variant AG-args `{c:5}`,
the resolved bundle carries `a=1`, `b=3`, `c=5` (plus the `model_type`
key). -/
theorem c1_merge_precedence (reg : Registry) (vg : Bool) (cd v g d0 : Dict)
    (mt : String) (cls : ModelCls) (pt : String)
    (hag : sget cd AG_ARGS = some (.dct v))
    (hmt : hasKeyS v "model_type" = false)
    (hcls : reg.findCls mt = some cls)
    (hdef : cls.default_ag_args = some d0)
    (hdefens : cls.default_ag_args_ensemble pt = Option.none) :
    clean_model_cfg reg vg (.dct cd) (ks mt) (some g) Option.none Option.none pt
      = .ok (sinsert cd AG_ARGS
          (.dct (dupdate d0 (dupdate g (sinsert v "model_type" (.s mt))))))
    ∧ sget (sinsert cd AG_ARGS
          (.dct (dupdate d0 (dupdate g (sinsert v "model_type" (.s mt))))))
        AG_ARGS
      = some (.dct (dupdate d0 (dupdate g (sinsert v "model_type" (.s mt))))) := by
  constructor
  · have e0 : pkeyVal (ks mt) = .s mt := rfl
    have e1 : hasKeyS cd AG_ARGS = true := hasKey_true_of_dget hag
    have e2 : sget (sinsert v "model_type" (.s mt)) "model_type"
        = some (.s mt) := dget_dinsert_self v (ks "model_type") (.s mt)
    have e3 : sinsert (sinsert v "model_type" (.s mt)) "model_type" (.s mt)
        = sinsert v "model_type" (.s mt) :=
      dinsert_dinsert_same v (ks "model_type") (.s mt) (.s mt)
    have e4 : sget (sinsert cd AG_ARGS (.dct (sinsert v "model_type" (.s mt))))
        AG_ARGS = some (.dct (sinsert v "model_type" (.s mt))) :=
      dget_dinsert_self cd (ks AG_ARGS) _
    have e5 : sget (sinsert (sinsert cd AG_ARGS
          (.dct (sinsert v "model_type" (.s mt)))) AG_ARGS
          (.dct (dupdate g (sinsert v "model_type" (.s mt))))) AG_ARGS
        = some (.dct (dupdate g (sinsert v "model_type" (.s mt)))) :=
      dget_dinsert_self _ (ks AG_ARGS) _
    have e6 : sinsert (sinsert (sinsert cd AG_ARGS
          (.dct (sinsert v "model_type" (.s mt)))) AG_ARGS
          (.dct (dupdate g (sinsert v "model_type" (.s mt))))) AG_ARGS
          (.dct (dupdate d0 (dupdate g (sinsert v "model_type" (.s mt)))))
        = sinsert (sinsert cd AG_ARGS (.dct (sinsert v "model_type" (.s mt))))
            AG_ARGS
            (.dct (dupdate d0 (dupdate g (sinsert v "model_type" (.s mt))))) :=
      dinsert_dinsert_same _ (ks AG_ARGS) _ _
    have e7 : sinsert (sinsert cd AG_ARGS
          (.dct (sinsert v "model_type" (.s mt)))) AG_ARGS
          (.dct (dupdate d0 (dupdate g (sinsert v "model_type" (.s mt)))))
        = sinsert cd AG_ARGS
            (.dct (dupdate d0 (dupdate g (sinsert v "model_type" (.s mt))))) :=
      dinsert_dinsert_same _ (ks AG_ARGS) _ _
    simp only [clean_model_cfg, _verify_model_cfg, e1, if_true, hag, hmt,
      Bool.false_eq_true, if_false, e0, e2, hcls, e3, e4, hdef, e5,
      hdefens, e6, e7]
  · exact dget_dinsert_self cd (ks AG_ARGS) _

/-- Witness for C1: the spec's concrete merge example.  Registry defaults
`{a:1,b:2}`, global override `{b:3,c:4}`, variant AG-args `{c:5}`; the
resolved bundle is `{a:1, b:3, c:5}` (plus the `model_type` key). -/
theorem c1_merge_precedence_witness :
    clean_model_cfg wReg true (.dct [(ks AG_ARGS, .dct [(ks "c", .i 5)])])
        (ks "RF") (some [(ks "b", .i 3), (ks "c", .i 4)]) Option.none
        Option.none BINARY
      = .ok (sinsert [(ks AG_ARGS, .dct [(ks "c", .i 5)])] AG_ARGS
          (.dct (dupdate [(ks "a", .i 1), (ks "b", .i 2)]
            (dupdate [(ks "b", .i 3), (ks "c", .i 4)]
              (sinsert [(ks "c", .i 5)] "model_type" (.s "RF"))))))
    ∧ dupdate [(ks "a", .i 1), (ks "b", .i 2)]
        (dupdate [(ks "b", .i 3), (ks "c", .i 4)]
          (sinsert [(ks "c", .i 5)] "model_type" (.s "RF")))
      = [(ks "a", .i 1), (ks "b", .i 3), (ks "c", .i 5),
         (ks "model_type", .s "RF")] :=
  ⟨(c1_merge_precedence wReg true [(ks AG_ARGS, .dct [(ks "c", .i 5)])]
      [(ks "c", .i 5)] [(ks "b", .i 3), (ks "c", .i 4)]
      [(ks "a", .i 1), (ks "b", .i 2)] "RF" wCls BINARY rfl rfl rfl rfl
      rfl).1, rfl⟩

/-- **C2** — Priority scheduling.  Whenever the discovery stage of
`get_preset_models` (level selection, include/exclude filtering, and
candidate collection in discovery order) succeeds with candidate list
`l`, the call resolves to instantiating `scheduleByPriority l` in order,
and that scheduled list is (a) non-increasing in the resolved integer
priorities and (b) stable: its sublist at each priority `q` is exactly
the discovery-ordered sublist of `l` at priority `q`. -/
theorem c2_priority_schedule (ctx : PresetCtx) (hyperparameters : Dict)
    (default_priorities : Option (List (String × Int)))
    (invalid_model_names : Option (List String))
    (included_model_types excluded_model_types : Option (List String))
    (hp_level0 : Dict) (l : List (Int × Dict))
    (hpt : [BINARY, MULTICLASS, REGRESSION, SOFTCLASS, QUANTILE].contains
      ctx.problem_type = true)
    (hsel : select_level hyperparameters ctx.level = .dct hp_level0)
    (hcol : collect_model_cfgs ctx
        (resolve_default_priorities ctx.reg ctx.problem_type
          default_priorities)
        (filter_models hp_level0 included_model_types excluded_model_types)
      = .ok l) :
    get_preset_models ctx hyperparameters default_priorities
        invalid_model_names included_model_types excluded_model_types
      = run_factory ctx (scheduleByPriority l) (invalid_model_names.getD [])
    ∧ ((scheduleByPriority l).map Prod.fst).Sorted (· ≥ ·)
    ∧ ∀ q : Int, (scheduleByPriority l).filter (fun c => c.1 == q)
        = l.filter (fun c => c.1 == q) := by
  refine ⟨?_, scheduleByPriority_sorted l, fun q => scheduleByPriority_stable l q⟩
  unfold get_preset_models
  rw [if_neg (by rw [hpt]; exact fun hc => hc rfl)]
  rw [hsel]
  simp only [hcol]

/-- **C3** — Name uniqueness.  In every successful resolution pass, no
two returned models share a final name, and no returned model's name is
in the caller-supplied exclusion list (each allocated name having been
added to the used-name set before the next candidate is named). -/
theorem c3_name_uniqueness (ctx : PresetCtx) (hyperparameters : Dict)
    (default_priorities : Option (List (String × Int)))
    (inv : List String)
    (included_model_types excluded_model_types : Option (List String))
    (ms : List MInst) (maf : List (String × Dict))
    (h : get_preset_models ctx hyperparameters default_priorities (some inv)
        included_model_types excluded_model_types = .ok (ms, maf)) :
    (ms.map (fun m => m.name)).Nodup ∧ ∀ x ∈ ms, x.name ∉ inv := by
  unfold get_preset_models at h
  split at h
  · exact Except.noConfusion h
  · split at h
    · rename_i hp_level0
      split at h
      · exact Except.noConfusion h
      · rename_i l hcol
        exact run_factory_names ctx (scheduleByPriority l) inv ms maf h
    · exact Except.noConfusion h

/-- Witness for C2 at the fixture input (`q := 100`). -/
theorem c2_priority_schedule_witness :
    (get_preset_models wCtx wHp Option.none Option.none Option.none
        Option.none
      = run_factory wCtx (scheduleByPriority wL)
          ((Option.none : Option (List String)).getD []))
    ∧ ((scheduleByPriority wL).map Prod.fst).Sorted (· ≥ ·)
    ∧ (scheduleByPriority wL).filter (fun c => c.1 == (100 : Int))
        = wL.filter (fun c => c.1 == (100 : Int)) :=
  have h := c2_priority_schedule wCtx wHp Option.none Option.none Option.none
    Option.none wHp wL rfl rfl rfl
  ⟨h.1, h.2.1, h.2.2 100⟩

/-- Witness for C3: two same-type variants plus the exclusion
`["LightGBM"]` resolve to `LightGBM_2`, `LightGBM_3` — pairwise distinct
and disjoint from the exclusion list. -/
theorem c3_name_uniqueness_witness :
    (([wM1, wM2].map (fun m => m.name)).Nodup
      ∧ ∀ x ∈ [wM1, wM2], x.name ∉ ["LightGBM"]) :=
  c3_name_uniqueness wCtx wHp Option.none ["LightGBM"] Option.none
    Option.none [wM1, wM2] [] rfl

/-- **C4** — Level selection.  `get_preset_models` reads the sub-mapping
stored under the requested level key; falls back to the `"default"` key
when the requested level is absent; and when neither the requested level
nor `"default"` is present (in particular when no level keys are present
at all) treats the entire spec as the `"default"` level, reading the
whole top-level mapping as the model-type mapping. -/
theorem c4_level_selection (h : Dict) (level : Int) :
    (∀ v, dget h (.i level) = some v → select_level h level = v)
    ∧ (dget h (.i level) = none →
        ∀ w, dget h (ks "default") = some w → select_level h level = w)
    ∧ (dget h (.i level) = none → dget h (ks "default") = none →
        select_level h level = .dct h) := by
  refine ⟨?_, ?_, ?_⟩
  · intro v hv
    unfold select_level
    rw [hv]
  · intro hnone w hw
    unfold select_level
    rw [hnone, hw]
  · intro hnone hdflt
    unfold select_level
    rw [hnone, hdflt]

/-- Witness for C4: all three selection modes at concrete specs. -/
theorem c4_level_selection_witness :
    select_level [(PKey.i 1, .s "x")] 1 = .s "x"
    ∧ select_level [(ks "default", .s "y")] 1 = .s "y"
    ∧ select_level [(ks "GBM", .dct [])] 1
        = .dct [(ks "GBM", .dct [])] :=
  ⟨(c4_level_selection [(PKey.i 1, .s "x")] 1).1 (.s "x") rfl,
   (c4_level_selection [(ks "default", .s "y")] 1).2.1 rfl (.s "y") rfl,
   (c4_level_selection [(ks "GBM", .dct [])] 1).2.2 rfl rfl⟩

/-- **C5** — HPO-conflict exclusion.  For every level and problem type, a
resolved candidate whose AG-args carry a set (truthy)
`hyperparameter_tune_kwargs` together with `disable_in_hpo = True` is
judged invalid by the validity filter — no error is raised — and is
silently dropped by the admission step (it contributes nothing to the
priority buckets). -/
theorem c5_hpo_conflict_dropped (cfg agA : Dict) (level : Int) (pt : String)
    (mtk : String) (w : PVal)
    (hag : sget cfg AG_ARGS = some (.dct agA))
    (hmt : sget agA "model_type" = some (.s mtk))
    (htk : sget agA "hyperparameter_tune_kwargs" = some w)
    (hw : w.truthy = true)
    (hdis : sget agA "disable_in_hpo" = some (.b true)) :
    is_model_cfg_valid cfg level (some pt) = .ok false
    ∧ admit_model_cfg cfg level pt = .ok Option.none := by
  have e1 : hasKeyS cfg AG_ARGS = true := hasKey_true_of_dget hag
  have e2 : (PVal.b true).truthy = true := rfl
  have hvalid : is_model_cfg_valid cfg level (some pt) = .ok false := by
    unfold is_model_cfg_valid
    simp only [e1, if_true, hag, hmt, htk, hdis, Option.getD_some, hw, e2,
      Bool.and_self, if_true]
  refine ⟨hvalid, ?_⟩
  unfold admit_model_cfg
  simp only [hvalid, Bool.false_eq_true, if_false]

/-- Witness for C5 at a concrete conflicted candidate. -/
theorem c5_hpo_conflict_dropped_witness :
    is_model_cfg_valid
        [(ks "ag_args", .dct [(ks "model_type", .s "GBM"),
          (ks "hyperparameter_tune_kwargs", .dct [(ks "num_trials", .i 5)]),
          (ks "disable_in_hpo", .b true)])] 1 (some BINARY) = .ok false
    ∧ admit_model_cfg
        [(ks "ag_args", .dct [(ks "model_type", .s "GBM"),
          (ks "hyperparameter_tune_kwargs", .dct [(ks "num_trials", .i 5)]),
          (ks "disable_in_hpo", .b true)])] 1 BINARY = .ok Option.none :=
  c5_hpo_conflict_dropped _
    [(ks "model_type", .s "GBM"),
     (ks "hyperparameter_tune_kwargs", .dct [(ks "num_trials", .i 5)]),
     (ks "disable_in_hpo", .b true)] 1 BINARY "GBM"
    (.dct [(ks "num_trials", .i 5)]) rfl rfl rfl rfl rfl

/-- **C7** — Unsupported problem type.  For every problem type outside
the five recognized kinds, `get_preset_models` fails with the
unsupported-problem-type error for *every* hyperparameter spec and every
other argument — the check precedes all per-candidate processing and all
other fatal checks. -/
theorem c7_unsupported_problem_type (ctx : PresetCtx) (hyperparameters : Dict)
    (default_priorities : Option (List (String × Int)))
    (invalid_model_names included_model_types excluded_model_types :
      Option (List String))
    (hpt : ctx.problem_type ∉ [BINARY, MULTICLASS, REGRESSION, SOFTCLASS,
      QUANTILE]) :
    get_preset_models ctx hyperparameters default_priorities
        invalid_model_names included_model_types excluded_model_types
      = .error .notImplementedError := by
  unfold get_preset_models
  rw [if_pos]
  intro hc
  exact hpt (by simpa [List.contains, List.elem_iff] using hc)

/-- Witness for C7: an unsupported problem type rejects even a malformed
spec (which would otherwise raise a different fatal error). -/
theorem c7_unsupported_problem_type_witness :
    get_preset_models { wCtx with problem_type := "timeseries" }
        [(ks "GBM", .i 5)] Option.none Option.none Option.none Option.none
      = .error .notImplementedError :=
  c7_unsupported_problem_type { wCtx with problem_type := "timeseries" }
    [(ks "GBM", .i 5)] Option.none Option.none Option.none Option.none
    (by decide)

/-- **C8** — Variant type verification.  A variant config that is a
mapping passes unchanged; any non-mapping value other than the legacy
`"GBMLarge"` sentinel is a fatal config-type error; the `"GBMLarge"`
sentinel is rejected when the running version is at or past the 1.3.0
cutoff and rewritten to the deprecated-but-supported mapping (with a
warning) when it predates it — the choice depends only on the
version flag sampled at call time. -/
theorem c8_variant_type_verification (vg : Bool) :
    (∀ d : List (PKey × PVal), _verify_model_cfg vg (.dct d) = .ok d)
    ∧ (∀ v : PVal, (∀ d, v ≠ .dct d) → (∀ st, v = .s st → st ≠ "GBMLarge") →
        _verify_model_cfg vg v = .error .assertionError)
    ∧ (vg = true →
        _verify_model_cfg vg (.s "GBMLarge") = .error .assertionError)
    ∧ (vg = false →
        _verify_model_cfg vg (.s "GBMLarge")
          = .ok get_deprecated_lightgbm_large_hyperparameters) := by
  refine ⟨fun d => rfl, ?_, ?_, ?_⟩
  · intro v hnd hns
    cases v with
    | dct d => exact absurd rfl (hnd d)
    | s st =>
      have := hns st rfl
      simp [_verify_model_cfg, this]
    | none => rfl
    | b x => rfl
    | i n => rfl
    | lst l => rfl
  · intro hv; subst hv; rfl
  · intro hv; subst hv; rfl

/-- Witness for C8: all four behaviours at concrete inputs. -/
theorem c8_variant_type_verification_witness :
    _verify_model_cfg true (.dct [(ks "lr", .i 1)]) = .ok [(ks "lr", .i 1)]
    ∧ _verify_model_cfg false (.i 3) = .error .assertionError
    ∧ _verify_model_cfg true (.s "GBMLarge") = .error .assertionError
    ∧ _verify_model_cfg false (.s "GBMLarge")
        = .ok get_deprecated_lightgbm_large_hyperparameters :=
  ⟨(c8_variant_type_verification true).1 [(ks "lr", .i 1)],
   (c8_variant_type_verification false).2.1 (.i 3)
     (fun d h => PVal.noConfusion h) (fun st h => PVal.noConfusion h),
   (c8_variant_type_verification true).2.2.1 rfl,
   (c8_variant_type_verification false).2.2.2 rfl⟩

/-- **C6** — Level-eligibility gating.  With every other validity
condition holding, a candidate with `valid_base = False` is excluded
exactly when `level = 1` (in particular included at `level = 2`), and a
candidate with `valid_stacker = False` is excluded exactly when
`level > 1` (in particular included at `level = 1`). -/
theorem c6_level_eligibility (cfg agA : Dict) (pt mtk : String)
    (hag : sget cfg AG_ARGS = some (.dct agA))
    (hmt : sget agA "model_type" = some (.s mtk))
    (hhtk : ((sget agA "hyperparameter_tune_kwargs").getD PVal.none).truthy
      = false)
    (hpts : sget agA "problem_types" = Option.none) :
    ((sget agA "valid_base" = some (.b false)) →
      ((sget agA "valid_stacker").getD (.b true)).truthy = true →
      ∀ level : Int, is_model_cfg_valid cfg level (some pt)
        = .ok (decide (level ≠ 1)))
    ∧ ((sget agA "valid_stacker" = some (.b false)) →
      ((sget agA "valid_base").getD (.b true)).truthy = true →
      ∀ level : Int, is_model_cfg_valid cfg level (some pt)
        = .ok (decide (level ≤ 1))) := by
  have e1 : hasKeyS cfg AG_ARGS = true := hasKey_true_of_dget hag
  have ebf : (PVal.b false).truthy = false := rfl
  constructor
  · intro hvb hvs level
    unfold is_model_cfg_valid
    simp only [e1, if_true, hag, hmt, hhtk, Bool.false_and,
      Bool.false_eq_true, if_false, hvs, Bool.not_true, hvb,
      Option.getD_some, ebf, Bool.not_false, Bool.true_and]
    by_cases hl : level = 1
    · simp [hl, hpts]
    · simp [hl, hpts]
  · intro hvs hvb level
    unfold is_model_cfg_valid
    simp only [e1, if_true, hag, hmt, hhtk, Bool.false_and,
      Bool.false_eq_true, if_false, hvs, Option.getD_some, ebf,
      Bool.not_false, Bool.true_and, hvb, Bool.not_true]
    by_cases hl : level > 1
    · have : ¬ level ≤ 1 := by omega
      simp [hl, hpts, this]
    · have h2 : level ≤ 1 := by omega
      simp [hl, hpts, h2]

/-- Witness for C6 at concrete candidates: `valid_base=False` is dropped
at level 1 and kept at level 2; `valid_stacker=False` is kept at level 1
and dropped at level 2. -/
theorem c6_level_eligibility_witness :
    is_model_cfg_valid
        [(ks "ag_args", .dct [(ks "model_type", .s "GBM"),
          (ks "valid_base", .b false)])] 1 (some BINARY) = .ok false
    ∧ is_model_cfg_valid
        [(ks "ag_args", .dct [(ks "model_type", .s "GBM"),
          (ks "valid_base", .b false)])] 2 (some BINARY) = .ok true
    ∧ is_model_cfg_valid
        [(ks "ag_args", .dct [(ks "model_type", .s "GBM"),
          (ks "valid_stacker", .b false)])] 1 (some BINARY) = .ok true
    ∧ is_model_cfg_valid
        [(ks "ag_args", .dct [(ks "model_type", .s "GBM"),
          (ks "valid_stacker", .b false)])] 2 (some BINARY) = .ok false := by
  have hA := (c6_level_eligibility
    [(ks "ag_args", .dct [(ks "model_type", .s "GBM"),
      (ks "valid_base", .b false)])]
    [(ks "model_type", .s "GBM"), (ks "valid_base", .b false)]
    BINARY "GBM" rfl rfl rfl rfl).1 rfl rfl
  have hB := (c6_level_eligibility
    [(ks "ag_args", .dct [(ks "model_type", .s "GBM"),
      (ks "valid_stacker", .b false)])]
    [(ks "model_type", .s "GBM"), (ks "valid_stacker", .b false)]
    BINARY "GBM" rfl rfl rfl rfl).2 rfl rfl
  exact ⟨hA 1, hA 2, hB 1, hB 2⟩

theorem mem_softclass_std_filter (hp : Dict) :
    ∀ kv ∈ softclass_std_filter hp,
      kv.1 ∈ [ks "GBM", ks "NN_TORCH", ks "CAT", ks "ENS_WEIGHTED"] := by
  intro kv h
  have hpred := (List.mem_filter.mp h).2
  cases hk : kv.1 with
  | i n => rw [hk] at hpred; simp at hpred
  | s st =>
    rw [hk] at hpred
    simp only at hpred
    have hmem : st = "GBM" ∨ st = "NN_TORCH" ∨ st = "CAT"
        ∨ st = "ENS_WEIGHTED" := by
      have : st ∈ ["GBM", "NN_TORCH", "CAT", "ENS_WEIGHTED"] := by
        simpa [List.contains, List.elem_iff] using hpred
      simpa using this
    rcases hmem with h1 | h1 | h1 | h1 <;> (subst h1; simp [ks])

theorem rf_newparams_fields (d : Dict) :
    sget (dupdate d rf_newparams) "criterion" = some (.s "squared_error")
    ∧ sget (dupdate d rf_newparams) AG_ARGS
        = some (.dct [(ks "name_suffix", .s "MSE")]) := by
  have he : dupdate d rf_newparams
      = dinsert (dinsert d (ks "criterion") (.s "squared_error"))
          (ks AG_ARGS) (.dct [(ks "name_suffix", .s "MSE")]) := rfl
  rw [he]
  constructor
  · rw [sget, dget_dinsert_ne _ _ _ _ (by simp [ks, AG_ARGS])]
    exact dget_dinsert_self d (ks "criterion") (.s "squared_error")
  · exact dget_dinsert_self _ (ks AG_ARGS) _

theorem rf_rewrite_list_mem :
    ∀ (l l2 : List PVal), rf_rewrite_list l = .ok l2 →
      ∀ y ∈ l2, ∃ d : Dict, y = .dct (dupdate d rf_newparams) := by
  intro l
  induction l with
  | nil =>
    intro l2 h y hy
    unfold rf_rewrite_list at h
    injection h with h2
    rw [← h2] at hy
    exact absurd hy (List.not_mem_nil y)
  | cons it rest ih =>
    intro l2 h y hy
    unfold rf_rewrite_list at h
    split at h
    · rename_i d
      split at h
      · exact Except.noConfusion h
      · rename_i tail htail
        injection h with h2
        rw [← h2] at hy
        rcases List.mem_cons.mp hy with hy1 | hy2
        · exact ⟨d, hy1⟩
        · exact ih tail htail y hy2
    · exact Except.noConfusion h

theorem dedupKeepLast_subset :
    ∀ (l : List PVal), ∀ x ∈ dedupKeepLast l, x ∈ l := by
  intro l
  induction l with
  | nil => intro x hx; exact absurd hx (List.not_mem_nil x)
  | cons a rest ih =>
    intro x hx
    unfold dedupKeepLast at hx
    by_cases h : rest.any (fun e => pyEq a e)
    · rw [if_pos h] at hx
      exact List.mem_cons_of_mem a (ih x hx)
    · rw [if_neg h] at hx
      rcases List.mem_cons.mp hx with hx1 | hx2
      · rw [hx1]; exact List.mem_cons_self a rest
      · exact List.mem_cons_of_mem a (ih x hx2)

theorem dedupKeepLast_pairwise :
    ∀ (l : List PVal),
      (dedupKeepLast l).Pairwise (fun a b => pyEq a b = false) := by
  intro l
  induction l with
  | nil => exact List.Pairwise.nil
  | cons a rest ih =>
    unfold dedupKeepLast
    by_cases h : rest.any (fun e => pyEq a e)
    · rw [if_pos h]; exact ih
    · rw [if_neg h]
      refine List.Pairwise.cons ?_ ih
      intro b hb
      have hbr : b ∈ rest := dedupKeepLast_subset rest b hb
      cases hpe : pyEq a b with
      | false => rfl
      | true => exact absurd (List.any_eq_true.mpr ⟨b, hbr, hpe⟩) h

theorem sget_softclass_std_filter_rf (hp : Dict) :
    sget (softclass_std_filter hp) "RF" = none := by
  apply dget_eq_none_of_hasKey_false
  rw [hasKey_false_iff]
  intro kv hkv
  have h4 := mem_softclass_std_filter hp kv hkv
  intro hc
  rw [hc] at h4
  simp [ks] at h4

theorem mem_allow_of_mem4 {k : PKey}
    (h : k ∈ [ks "GBM", ks "NN_TORCH", ks "CAT", ks "ENS_WEIGHTED"]) :
    k ∈ [ks "GBM", ks "NN_TORCH", ks "CAT", ks "ENS_WEIGHTED", ks "RF"] := by
  simp only [List.mem_cons, List.mem_singleton] at h ⊢
  tauto

/-- **C9** — Soft-classification entry point.  (a) The spec handed to the
generic resolver only carries model types from the fixed allow-list;
(b) every RF variant is rewritten to `criterion = "squared_error"` with
name-suffix `MSE`, and the rewritten RF variants are pairwise distinct
(duplicates arising from the rewrite are removed); (c) a successful call
returns a non-empty model list in which every model has
`normalize_pred_probas = true`; (d) when zero models survive filtering
the call fails with the descriptive `ValueError`. -/
theorem c9_softclass_entry (hyperparameters : Dict) :
    (∀ hstd, softclass_standard_hp hyperparameters = .ok hstd →
      ∀ kv ∈ hstd, kv.1 ∈ [ks "GBM", ks "NN_TORCH", ks "CAT",
        ks "ENS_WEIGHTED", ks "RF"])
    ∧ (∀ hstd rl, softclass_standard_hp hyperparameters = .ok hstd →
      sget hstd "RF" = some (.lst rl) →
      (∀ it ∈ rl, ∃ d : Dict, it = .dct d
        ∧ sget d "criterion" = some (.s "squared_error")
        ∧ sget d AG_ARGS = some (.dct [(ks "name_suffix", .s "MSE")]))
      ∧ rl.Pairwise (fun x y => pyEq x y = false))
    ∧ (∀ (ctx : PresetCtx) dp inv inc exc ms maf,
      get_preset_models_softclass ctx hyperparameters dp inv inc exc
        = .ok (ms, maf) →
      ms ≠ [] ∧ ∀ m ∈ ms, m.normalize_pred_probas = true)
    ∧ (∀ (ctx : PresetCtx) dp inv inc exc hstd maf2,
      softclass_standard_hp hyperparameters = .ok hstd →
      get_preset_models
          { ctx with problem_type := SOFTCLASS, eval_metric := "soft_log_loss" }
          hstd dp inv inc exc
        = .ok ([], maf2) →
      get_preset_models_softclass ctx hyperparameters dp inv inc exc
        = .error .valueError) := by
  refine ⟨?_, ?_, ?_, ?_⟩
  · intro hstd hok kv hkv
    unfold softclass_standard_hp at hok
    split at hok
    · injection hok with h2
      rw [← h2] at hkv
      exact mem_allow_of_mem4 (mem_softclass_std_filter hyperparameters kv hkv)
    · split at hok
      · exact Except.noConfusion hok
      · injection hok with h2
        rw [← h2] at hkv
        rcases mem_dinsert _ _ _ kv hkv with h1 | h1
        · rw [List.mem_map] at h1
          obtain ⟨kv0, hkv0, he⟩ := h1
          rw [← he]
          exact mem_allow_of_mem4
            (mem_softclass_std_filter hyperparameters kv0 hkv0)
        · rw [h1]; simp
    · exact Except.noConfusion hok
  · intro hstd rl hok hrf
    unfold softclass_standard_hp at hok
    split at hok
    · injection hok with h2
      rw [← h2, sget_softclass_std_filter_rf] at hrf
      exact Option.noConfusion hrf
    · split at hok
      · exact Except.noConfusion hok
      · rename_i items items2 hrw
        injection hok with h2
        rw [← h2] at hrf
        rw [sget, sinsert, dget_dinsert_self] at hrf
        injection hrf with h3
        have hrl : rl = dedupKeepLast items2 := by
          injection h3.symm
        subst hrl
        constructor
        · intro it hit
          have hitm : it ∈ items2 :=
            dedupKeepLast_subset items2 it hit
          obtain ⟨d0, hd0⟩ := rf_rewrite_list_mem _ _ hrw it hitm
          exact ⟨dupdate d0 rf_newparams, hd0, (rf_newparams_fields d0).1,
            (rf_newparams_fields d0).2⟩
        · exact dedupKeepLast_pairwise items2
    · exact Except.noConfusion hok
  · intro ctx dp inv inc exc ms maf h
    unfold get_preset_models_softclass at h
    split at h
    · exact Except.noConfusion h
    · split at h
      · exact Except.noConfusion h
      · rename_i pr hpr
        split at h
        · exact Except.noConfusion h
        · rename_i hlen
          injection h with h2
          injection h2 with hms hmaf
          constructor
          · rw [← hms]
            intro hc
            rw [List.map_eq_nil_iff] at hc
            rw [hc] at hlen
            exact hlen rfl
          · intro m hm
            rw [← hms] at hm
            rw [List.mem_map] at hm
            obtain ⟨m0, _, he⟩ := hm
            rw [← he]
  · intro ctx dp inv inc exc hstd maf2 hok hinner
    unfold get_preset_models_softclass
    simp only [hok, hinner, List.length_nil, if_pos]

/-- Witness for C9: the spec's round-trip example (GBM plus an RF variant
with `criterion = "entropy"`) and the empty-spec failure case. -/
theorem c9_softclass_entry_witness :
    (∀ kv ∈ wHstd, kv.1 ∈ [ks "GBM", ks "NN_TORCH", ks "CAT",
      ks "ENS_WEIGHTED", ks "RF"])
    ∧ (∀ it ∈ wRl, ∃ d : Dict, it = .dct d
        ∧ sget d "criterion" = some (.s "squared_error")
        ∧ sget d AG_ARGS = some (.dct [(ks "name_suffix", .s "MSE")]))
    ∧ wRl.Pairwise (fun x y => pyEq x y = false)
    ∧ ([wMsc1, wMsc2] ≠ []
        ∧ ∀ m ∈ [wMsc1, wMsc2], m.normalize_pred_probas = true)
    ∧ get_preset_models_softclass wCtx [] Option.none Option.none
        Option.none Option.none = .error .valueError :=
  have h := c9_softclass_entry wHpSc
  have h0 := c9_softclass_entry ([] : Dict)
  ⟨h.1 wHstd rfl,
   (h.2.1 wHstd wRl rfl rfl).1,
   (h.2.1 wHstd wRl rfl rfl).2,
   h.2.2.1 wCtx Option.none Option.none Option.none Option.none
     [wMsc1, wMsc2] [] (by rfl),
   h0.2.2.2 wCtx Option.none Option.none Option.none Option.none [] []
     rfl rfl⟩

/-- **C10** — Termination of the name-disambiguation loops.  The
candidate-name generators of both paths are injective (distinct counter
values always yield distinct candidate names), and consequently, for
every finite used-name set, the search that `model_factory` runs with
fuel `used.length + 1` returns a name outside the used set — the loop
escapes after finitely many strict counter increments. -/
theorem c10_disambiguation_terminates (orig sfx nbag lvlstr : String)
    (used : List String) :
    Function.Injective (nonEnsNameGen orig sfx)
    ∧ Function.Injective (stackerNameGen orig nbag lvlstr sfx)
    ∧ nonEnsNameGen orig sfx
        (searchIdx used (nonEnsNameGen orig sfx) (used.length + 1) 1) ∉ used
    ∧ stackerNameGen orig nbag lvlstr sfx
        (searchIdx used (stackerNameGen orig nbag lvlstr sfx)
          (used.length + 1) 1) ∉ used :=
  ⟨nonEnsNameGen_injective orig sfx,
   stackerNameGen_injective orig nbag lvlstr sfx,
   searchIdx_not_mem used _ (nonEnsNameGen_injective orig sfx) 1,
   searchIdx_not_mem used _ (stackerNameGen_injective orig nbag lvlstr sfx) 1⟩

/-- Witness for C10: concrete distinct counters yield distinct names, and
the search escapes a concrete used set. -/
theorem c10_disambiguation_terminates_witness :
    nonEnsNameGen "GBM" "" 2 ≠ nonEnsNameGen "GBM" "" 3
    ∧ nonEnsNameGen "GBM" ""
        (searchIdx ["GBM", "GBM_2"] (nonEnsNameGen "GBM" "")
          (["GBM", "GBM_2"].length + 1) 1) ∉ ["GBM", "GBM_2"] :=
  have h := c10_disambiguation_terminates "GBM" "" "_BAG" "1" ["GBM", "GBM_2"]
  ⟨fun he => absurd (h.1 he) (by decide), h.2.2.1⟩
